import Mathlib

/-
Verification of the JobSpy multi-source job-scraping engine (Go) against its
natural-language specification.

The Go sources are embedded shallowly:

* `models.go` : the canonical data model (`JobType`, `Site`, `Country`,
  `CompensationInterval`, `Location`, `Compensation`, `JobPost`, `JobResponse`)
  becomes Lean structures / inductives.  Go `*T` pointer fields become
  `Option T`; a Go nil slice is distinguished from an empty one by modelling
  the slice-valued results that the spec cares about as `Option (List _)`.
  Go `float64` salary amounts are modelled as exact decimal rationals `ℚ`
  (every amount the parser can produce is a decimal with two fraction digits;
  binary floating-point rounding is out of scope here).
* `jobspy.go` (src/unnamed/part_002) : the orchestrator `ScrapeJobs`.
  The goroutine fan-out writes each adapter's result (or error) to a buffered
  channel and joins with `wg.Wait()` before draining; the drain is modelled as
  a fold over the launched sites in launch order, which fixes one arrival
  order.  All theorems below are insensitive to that choice: they quantify
  over arbitrary site lists and adapter outcomes.
* `indeed_scraper.go` : the pagination walk in `IndeedScraper.Scrape`
  (`scrapeWalk`, fuelled — fuel exhaustion returns `none`), the final
  offset/limit slicing (`applyOffsetLimit`, with the Go `int` sum
  `offset + resultsWanted` wrapped at 64 bits and slice-bounds panics
  returned as `none`), the salary parser (`parseSalary` together with a faithful model of
  the Go regexp `\$?([\d,]+(?:\.\d{2})?)` under leftmost-first semantics),
  the dedup filter of `scrapePage` (`dedupPage`), and `extractJobType`.
* `utils.go` : `ProxyRotator.Next`, `ExtractEmailsFromText` (with a faithful
  backtracking model of the email regexp), `MapStringToSite`.

All string heuristics in the sources operate on ASCII data; `strings.ToLower`
and `strings.ToUpper` are modelled with the ASCII `Char.toLower`/`Char.toUpper`.
-/

set_option autoImplicit false

namespace JobSpy

/-! ### ASCII string helpers (strings.ToLower / ToUpper / Title / Contains) -/

/-- Lower-case a string character-wise (`strings.ToLower` on ASCII data). -/
def goLower (s : String) : List Char := s.data.map Char.toLower

/-- Upper-case a string character-wise (`strings.ToUpper` on ASCII data). -/
def goUpper (s : String) : String := ⟨s.data.map Char.toUpper⟩

/-- Helper for `goTitle`: the boolean records whether the previous character
was a letter (a letter that does not follow a letter begins a word). -/
def titleAux : Bool → List Char → List Char
  | _, [] => []
  | prevLetter, c :: cs =>
    (if c.isAlpha && !prevLetter then c.toUpper else c) :: titleAux c.isAlpha cs

/-- Model of Go `strings.Title` on ASCII data: upper-case every letter that
begins a word. -/
def goTitle (s : String) : String := ⟨titleAux false s.data⟩

/-- Does `pat` occur at the head of `s`? -/
def leadMatch : List Char → List Char → Bool
  | [], _ => true
  | _ :: _, [] => false
  | p :: ps, c :: cs => p == c && leadMatch ps cs

/-- Does `pat` occur as a contiguous substring of `s`?
(`strings.Contains` on character lists.) -/
def hasSub (pat : List Char) : List Char → Bool
  | [] => leadMatch pat []
  | c :: cs => leadMatch pat (c :: cs) || hasSub pat cs

/-- Case-insensitive containment used all over the scraper:
`strings.Contains(strings.ToLower(s), pat)` with an already-lower-case `pat`. -/
def containsLower (s : String) (pat : String) : Bool :=
  hasSub pat.data (goLower s)

/-! ### Canonical data model (models.go) -/

/-- Employment types (`JobType` constants in models.go). -/
inductive JobType where
  | fulltime | parttime | contract | temporary | internship
  | perdiem | nights | other | summer | volunteer
deriving DecidableEq, Repr

/-- Job-board sites (`Site` constants in models.go). -/
inductive Site where
  | linkedin | indeed | zipRecruiter | glassdoor | google | bayt | naukri | bdjobs
deriving DecidableEq, Repr

/-- Compensation payment intervals (`CompensationInterval` in models.go). -/
inductive CompensationInterval where
  | yearly | monthly | weekly | daily | hourly
deriving DecidableEq, Repr

/-- Geographic location (models.go `Location`); the Go `Country` type is a
string type, so the country field is an optional string here. -/
structure Location where
  city : Option String := none
  state : Option String := none
  country : Option String := none
deriving DecidableEq, Repr

/-- Salary information (models.go `Compensation`); `*float64` amounts are
modelled as optional exact decimals. -/
structure Compensation where
  interval : Option CompensationInterval := none
  minAmount : Option ℚ := none
  maxAmount : Option ℚ := none
  currency : Option String := none
deriving DecidableEq, Repr

/-- A single job posting (models.go `JobPost`).  Pointer fields are `Option`,
nil-able slice fields are `Option (List _)`, and `time.Time` is an epoch
timestamp.  Defaults mirror the Go zero value of the struct. -/
structure JobPost where
  id : Option String := none
  title : String := ""
  companyName : Option String := none
  jobURL : String := ""
  jobURLDirect : Option String := none
  location : Option Location := none
  description : Option String := none
  companyURL : Option String := none
  jobType : Option (List JobType) := none
  compensation : Option Compensation := none
  datePosted : Option Int := none
  emails : Option (List String) := none
  isRemote : Option Bool := none
  listingType : Option String := none
  jobLevel : Option String := none
  companyIndustry : Option String := none
  companyAddresses : Option String := none
  companyNumEmployees : Option String := none
  companyRevenue : Option String := none
  companyDescription : Option String := none
  companyLogo : Option String := none
  bannerPhotoURL : Option String := none
  jobFunction : Option String := none
  skills : Option (List String) := none
  experienceRange : Option String := none
  companyRating : Option ℚ := none
  companyReviewsCount : Option Int := none
  vacancyCount : Option Int := none
  workFromHomeType : Option String := none
deriving DecidableEq, Repr

/-- The result of a scraping operation (models.go `JobResponse`). -/
structure JobResponse where
  jobs : List JobPost := []
deriving DecidableEq, Repr

/-- Rendering of the country part inside `Location.String` (models.go lines
100-107): the token is upper-cased when it is exactly `"usa"` or `"uk"` and
passed through `strings.Title` otherwise. -/
def renderCountry (c : String) : String :=
  if c = "usa" || c = "uk" then goUpper c else goTitle c

/-- Model of `Location.String` (models.go lines 92-110): join the present
parts with `", "`, transforming the country token via `renderCountry`. -/
def locationString (l : Location) : String :=
  let parts : List String :=
    (match l.city with | some c => [c] | none => []) ++
    (match l.state with | some st => [st] | none => []) ++
    (match l.country with | some ctry => [renderCountry ctry] | none => [])
  String.intercalate ", " parts

/-! ### Site-name resolution (utils.go `MapStringToSite`, jobspy.go `parseSites`) -/

/-- Model of `MapStringToSite` (utils.go lines 189-210). -/
def MapStringToSite (s : String) : Except String Site :=
  let l : String := ⟨goLower s⟩
  if l = "linkedin" then .ok .linkedin
  else if l = "indeed" then .ok .indeed
  else if l = "zip_recruiter" || l = "ziprecruiter" then .ok .zipRecruiter
  else if l = "glassdoor" then .ok .glassdoor
  else if l = "google" then .ok .google
  else if l = "bayt" then .ok .bayt
  else if l = "naukri" then .ok .naukri
  else if l = "bdjobs" then .ok .bdjobs
  else .error ("unknown site: " ++ s)

/-- The dynamically typed `SiteName interface\x7b\x7d` argument of `ScrapeJobs`:
it may be nil, a string, a string slice, a `Site`, a `Site` slice, or any
other type (rejected by the `default` switch arm, which reports the Go type
name). -/
inductive SiteNameInput where
  | nilInput
  | str (s : String)
  | strList (l : List String)
  | site (s : Site)
  | siteList (l : List Site)
  | unsupported (typeName : String)

/-- Model of `parseSites` (jobspy.go lines 176-203). -/
def parseSites : SiteNameInput → Except String (List Site)
  | .nilInput => .ok [.indeed, .linkedin, .glassdoor, .google]
  | .str s => do
    let site ← MapStringToSite s
    return [site]
  | .strList l => l.mapM MapStringToSite
  | .site s => .ok [s]
  | .siteList l => .ok l
  | .unsupported t => .error ("unsupported site name type: " ++ t)

/-! ### The orchestrator (jobspy.go `ScrapeJobs`, lines 104-148)

An adapter registered for a site is characterised by the outcome of its
`Scrape` call during the run, so the `scrapers` map of line 99 together with
the interface dispatch of line 121 is a function
`Site → Option (Except String (List JobPost))`: `none` models a site with no
registered scraper (skipped with a warning at line 111-114), `some (.error e)`
a fetch that fails, `some (.ok jobs)` a fetch that succeeds. -/

/-- One run of the fan-out/fan-in loop of `ScrapeJobs` (lines 109-146):
successful results land on `resultsChan`, errors on `errorsChan`; the drain
is modelled in launch order.  Returns (per-site success lists, error list). -/
def collectRuns (scrapers : Site → Option (Except String (List JobPost))) :
    List Site → List (List JobPost) × List String
  | [] => ([], [])
  | site :: rest =>
    let acc := collectRuns scrapers rest
    match scrapers site with
    | none => acc
    | some (.ok result) => (result :: acc.1, acc.2)
    | some (.error e) => (acc.1, e :: acc.2)

/-- The per-adapter errors drained from `errorsChan` at lines 144-146; the Go
code only logs them. -/
def loggedErrors (scrapers : Site → Option (Except String (List JobPost)))
    (sites : List Site) : List String :=
  (collectRuns scrapers sites).2

/-- The value `ScrapeJobs` builds once the sites are resolved (lines 104-148):
the concatenated successful postings and the returned `error` value, which is
the literal `nil` of line 148. -/
def scrapeJobsFromSites (scrapers : Site → Option (Except String (List JobPost)))
    (sites : List Site) : JobResponse × Option String :=
  (⟨(collectRuns scrapers sites).1.flatten⟩, none)

/-- Model of `ScrapeJobs` (jobspy.go lines 38-149): resolve the site names;
a resolution failure aborts the run (line 46-48); otherwise fan out and
return the joined jobs with a nil error. -/
def ScrapeJobsModel (scrapers : Site → Option (Except String (List JobPost)))
    (siteName : SiteNameInput) : Except String (JobResponse × Option String) :=
  match parseSites siteName with
  | .error e => .error ("error parsing sites: " ++ e)
  | .ok sites => .ok (scrapeJobsFromSites scrapers sites)

/-! ### Per-adapter dedup (indeed_scraper.go `scrapePage`, lines 134-143)

The `seenURLs map[string]bool` of the scraper is modelled as the list of URLs
already inserted; only membership is ever consulted. -/

/-- The dedup filter applied to the parsed job cards of one page: a job whose
canonical URL is already in the seen set is dropped silently, otherwise it is
emitted and its URL recorded. -/
def dedupPage (seen : List String) : List JobPost → List JobPost × List String
  | [] => ([], seen)
  | j :: rest =>
    if j.jobURL ∈ seen then dedupPage seen rest
    else
      let next := dedupPage (j.jobURL :: seen) rest
      (j :: next.1, next.2)

/-! ### The pagination walk (indeed_scraper.go `Scrape`, lines 47-71)

One page fetch (`scrapePage` up to its dedup step) is abstracted as a function
from the page counter and the current cursor to either an error or (raw
parsed job cards, next cursor) — indexing by the page counter lets the
abstract source answer a repeated cursor with different pages, as a live,
stateful site may; `scrapePage`'s dedup step is `dedupPage`.  The `for` loop
becomes a fuelled recursion: `none` means the fuel ran out before the loop
ended, so a `some` result with a given fuel bounds the number of loop
iterations. -/

/-- The page loop of `IndeedScraper.Scrape`: while fewer than
`resultsWanted + offset` jobs are accumulated, fetch a page, stop on error,
stop when the page yields zero new (post-dedup) jobs, append, and stop when
no next cursor was extracted. -/
def scrapeWalk (fetch : Nat → String → Except String (List JobPost × String))
    (target : Int) :
    Nat → Nat → List JobPost → List String → String →
    Option (Except String (List JobPost))
  | 0, _, _, _, _ => none
  | fuel + 1, page, allJobs, seen, cursor =>
    if (allJobs.length : Int) < target then
      match fetch page cursor with
      | .error e => some (.error e)
      | .ok (items, nextCursor) =>
        let newJobs := dedupPage seen items
        if newJobs.1.isEmpty then some (.ok allJobs)
        else
          let allJobs' := allJobs ++ newJobs.1
          if nextCursor = "" then some (.ok allJobs')
          else scrapeWalk fetch target fuel (page + 1) allJobs' newJobs.2 nextCursor
    else some (.ok allJobs)

/-! ### Offset/limit slicing (indeed_scraper.go `Scrape`, lines 73-85) -/

/-- Wrap an unbounded integer to Go's 64-bit `int` (two's-complement): the
result is congruent mod `2 ^ 64` and lies in `[-2 ^ 63, 2 ^ 63)`. -/
def goIntWrap (z : Int) : Int := (z + 2 ^ 63) % 2 ^ 64 - 2 ^ 63

/-- The final slicing step of `IndeedScraper.Scrape`: line 75 computes
`end := input.Offset + input.ResultsWanted` in Go `int` arithmetic, which
wraps at 64 bits (`goIntWrap`); lines 76-81 clamp `start` and `end` to the
accumulated length (from above only — the Go code never clamps from below)
and line 84 takes the slice.  A Go slice expression `allJobs[start:stop]`
panics unless `0 ≤ start ≤ stop`; the panic is modelled as `none`.  The
`offset` and `resultsWanted` arguments are themselves Go `int` values and are
taken as given (no arithmetic is performed on them alone). -/
def applyOffsetLimit (allJobs : List JobPost) (offset resultsWanted : Int) :
    Option (List JobPost) :=
  let n : Int := allJobs.length
  let start := if offset > n then n else offset
  let stop := if goIntWrap (offset + resultsWanted) > n then n
    else goIntWrap (offset + resultsWanted)
  if 0 ≤ start ∧ start ≤ stop then
    some ((allJobs.drop start.toNat).take (stop - start).toNat)
  else none

/-! ### Salary parsing (indeed_scraper.go `parseSalary`, lines 266-316)

The Go regexp `\$?([\d,]+(?:\.\d\x7b2\x7d)?)` is applied with
`FindAllStringSubmatch`.  Under Go's leftmost-first semantics, and because a
`$` never appears in the capture group, the successive captured groups are
exactly: each maximal run of digits/commas, extended by a following `.dd`
(a dot followed by at least two digits) when present.  `salScan` computes that
token list directly; the accumulator holds the current run reversed. -/

/-- A captured salary token: the digit/comma run and the optional two
fraction digits. -/
structure SalToken where
  run : List Char
  frac : Option (Char × Char)
deriving DecidableEq, Repr

/-- Is this character matched by the class `[\d,]`? -/
def isAmtChar (c : Char) : Bool := c.isDigit || c == ','

/-- Scan for salary tokens; `cur` is the reversed digit/comma run in
progress.  The dedicated clause for `'.' :: d1 :: d2 :: rest` realises the
optional `(?:\.\d\x7b2\x7d)?` extension of a just-finished run. -/
def salScan : List Char → List Char → List SalToken
  | cur, [] => if cur.isEmpty then [] else [⟨cur.reverse, none⟩]
  | cur, '.' :: d1 :: d2 :: rest =>
    if cur.isEmpty then salScan [] (d1 :: d2 :: rest)
    else if d1.isDigit && d2.isDigit then
      ⟨cur.reverse, some (d1, d2)⟩ :: salScan [] rest
    else ⟨cur.reverse, none⟩ :: salScan [] (d1 :: d2 :: rest)
  | cur, c :: cs =>
    if isAmtChar c then salScan (c :: cur) cs
    else if cur.isEmpty then salScan [] cs
    else ⟨cur.reverse, none⟩ :: salScan [] cs

/-- The captured groups of `FindAllStringSubmatch` on the salary regexp. -/
def salTokens (s : List Char) : List SalToken := salScan [] s

/-- Numeric value of a digit list (most significant first). -/
def digitsVal (ds : List Char) : Nat :=
  ds.foldl (fun acc c => 10 * acc + (c.toNat - 48)) 0

/-- Model of lines 285-292: strip the commas from the captured group and
parse it with `strconv.ParseFloat`; an all-comma group with no fraction part
fails to parse and is skipped.  The decimal value is kept exactly. -/
def tokenAmount (t : SalToken) : Option ℚ :=
  let ds := t.run.filter (fun c => c != ',')
  match t.frac with
  | none => if ds.isEmpty then none else some (digitsVal ds : ℚ)
  | some (d1, d2) =>
    some ((digitsVal ds : ℚ) + ((10 * (d1.toNat - 48) + (d2.toNat - 48) : ℕ) : ℚ) / 100)

/-- The successfully parsed amounts of a salary text, in order. -/
def salAmounts (salaryText : String) : List ℚ :=
  (salTokens salaryText.data).filterMap tokenAmount

/-- Model of `IndeedScraper.parseSalary` (lines 266-316): empty text or zero
regexp matches give no compensation; otherwise the currency is hard-coded to
`"USD"`, min/max come from the first one or two parsed amounts, and the
interval is inferred by case-insensitive substring search in the order
year/annual, hour, month. -/
def parseSalary (salaryText : String) : Option Compensation :=
  if salaryText = "" then none
  else if (salTokens salaryText.data).isEmpty then none
  else
    let amounts := salAmounts salaryText
    let pair : Option ℚ × Option ℚ :=
      match amounts with
      | [] => (none, none)
      | [a] => (some a, some a)
      | a :: b :: _ => (some a, some b)
    let interval : Option CompensationInterval :=
      if containsLower salaryText "year" || containsLower salaryText "annual" then
        some .yearly
      else if containsLower salaryText "hour" then some .hourly
      else if containsLower salaryText "month" then some .monthly
      else none
    some { interval := interval, minAmount := pair.1, maxAmount := pair.2,
           currency := some "USD" }

/-! ### Employment-type inference (indeed_scraper.go `extractJobType`,
lines 330-351)

The Go function starts from a nil slice and appends for each marker found;
it returns nil exactly when no marker matched.  The nil/non-nil distinction
of the returned slice is modelled with `Option`. -/

/-- The employment types appended by the five marker checks of
`extractJobType`, in source order. -/
def jobTypeMarkers (description : String) : List JobType :=
  (if containsLower description "full-time" || containsLower description "fulltime"
    then [.fulltime] else []) ++
  (if containsLower description "part-time" || containsLower description "parttime"
    then [.parttime] else []) ++
  (if containsLower description "contract" then [.contract] else []) ++
  (if containsLower description "intern" then [.internship] else []) ++
  (if containsLower description "temporary" then [.temporary] else [])

/-- Model of `IndeedScraper.extractJobType`: the Go function returns its nil
start value exactly when no marker matched, and the appended list otherwise. -/
def extractJobType (description : String) : Option (List JobType) :=
  if (jobTypeMarkers description).isEmpty then none
  else some (jobTypeMarkers description)

/-! ### Email extraction (utils.go `ExtractEmailsFromText`, lines 175-186)

The Go regexp is `[a-zA-Z0-9._%+-]+@[a-zA-Z0-9.-]+\.[a-zA-Z]\x7b2,\x7d`, applied
with `FindAllString` (leftmost-first, non-overlapping).  At a candidate start:
the local part must be a maximal run of its class followed by `@` (shortening
the greedy run cannot help because `@` is outside the class); the domain is
the maximal run of `[a-zA-Z0-9.-]`, backtracked to the rightmost `.` inside it
that is not its first character and is followed by at least two letters; the
TLD is then the maximal letter run after that dot.  Scanning restarts right
after each match, or one character later after a failed start. -/

/-- Take the maximal leading run satisfying `p`, returning (run, rest). -/
def takeRun (p : Char → Bool) : List Char → List Char × List Char
  | [] => ([], [])
  | c :: cs =>
    if p c then
      let r := takeRun p cs
      (c :: r.1, r.2)
    else ([], c :: cs)

/-- The regexp class `[a-zA-Z0-9._%+-]` of the local part. -/
def isEmailLocalChar (c : Char) : Bool :=
  c.isAlphanum || c == '.' || c == '_' || c == '%' || c == '+' || c == '-'

/-- The regexp class `[a-zA-Z0-9.-]` of the domain part. -/
def isEmailDomainChar (c : Char) : Bool :=
  c.isAlphanum || c == '.' || c == '-'

/-- Does the list start with two letters (the `\.[a-zA-Z]\x7b2,\x7d` tail needs
at least two)? -/
def twoAlpha : List Char → Bool
  | d1 :: d2 :: _ => d1.isAlpha && d2.isAlpha
  | _ => false

/-- Rightmost decomposition `u ++ '.' :: v` of a list such that `v` starts
with two letters; models the backtracking of the greedy domain run. -/
def splitDotR : List Char → Option (List Char × List Char)
  | [] => none
  | c :: cs =>
    match splitDotR cs with
    | some (u, v) => some (c :: u, v)
    | none => if c == '.' && twoAlpha cs then some ([], cs) else none

/-- Attempt an email match at the head of `s`; on success return the matched
characters and the rest of the input. -/
def matchEmailAt (s : List Char) : Option (List Char × List Char) :=
  let local_ := takeRun isEmailLocalChar s
  if local_.1.isEmpty then none
  else
    match local_.2 with
    | '@' :: rest2 =>
      let dom := takeRun isEmailDomainChar rest2
      match splitDotR dom.1 with
      | some (u, v) =>
        if u.isEmpty then none
        else
          let tld := takeRun Char.isAlpha v
          some (local_.1 ++ '@' :: u ++ '.' :: tld.1, tld.2 ++ dom.2)
      | none => none
    | _ => none

theorem takeRun_eq_append (p : Char → Bool) (s : List Char) :
    (takeRun p s).1 ++ (takeRun p s).2 = s := by
  induction s with
  | nil => rfl
  | cons c cs ih =>
    simp only [takeRun]
    split
    · simpa using ih
    · rfl

theorem splitDotR_eq_append {b : List Char} {u v : List Char}
    (h : splitDotR b = some (u, v)) : b = u ++ '.' :: v := by
  induction b generalizing u v with
  | nil => simp [splitDotR] at h
  | cons c cs ih =>
    rw [splitDotR] at h
    match h2 : splitDotR cs with
    | some (u', v') =>
      rw [h2] at h
      cases h
      simpa using ih h2
    | none =>
      rw [h2] at h
      by_cases hb : (c == '.' && twoAlpha cs) = true
      · rw [if_pos hb] at h
        cases h
        have hc : c = '.' := by
          have := (Bool.and_eq_true _ _).mp hb
          simpa using this.1
        simp [hc]
      · rw [if_neg hb] at h
        cases h


theorem matchEmailAt_rest_lt :
    ∀ {s m rest : List Char}, matchEmailAt s = some (m, rest) →
      rest.length < s.length := by
  intro s m rest h
  unfold matchEmailAt at h
  dsimp only at h
  split at h
  · cases h
  · next hne =>
    split at h
    · next rest2 heq =>
      split at h
      · next u v hsplit =>
        split at h
        · cases h
        · next hu =>
          cases h
          have e1 : (takeRun isEmailLocalChar s).1 ++ (takeRun isEmailLocalChar s).2 = s :=
            takeRun_eq_append _ s
          have e2 : (takeRun isEmailDomainChar rest2).1 ++ (takeRun isEmailDomainChar rest2).2 = rest2 :=
            takeRun_eq_append _ rest2
          have e3 : (takeRun Char.isAlpha v).1 ++ (takeRun Char.isAlpha v).2 = v :=
            takeRun_eq_append _ v
          have e4 : (takeRun isEmailDomainChar rest2).1 = u ++ '.' :: v :=
            splitDotR_eq_append hsplit
          have l1 := congrArg List.length e1
          have l2 := congrArg List.length e2
          have l3 := congrArg List.length e3
          have l4 := congrArg List.length e4
          simp only [List.length_append, List.length_cons] at l1 l2 l3 l4
          have hne' : (takeRun isEmailLocalChar s).1.length ≠ 0 := by
            simpa [List.isEmpty_iff, List.length_eq_zero] using hne
          rw [heq] at l1
          simp only [List.length_cons] at l1
          simp only [List.length_cons, List.length_append]
          omega
      · cases h
    · cases h

/-- Model of `FindAllString` for the email regexp: scan left to right,
emitting each leftmost match and restarting right after it, advancing one
character on a failed start. -/
def emailScan (s : List Char) : List (List Char) :=
  match h : matchEmailAt s with
  | some (m, rest) => m :: emailScan rest
  | none =>
    match s with
    | [] => []
    | _ :: cs => emailScan cs
termination_by s.length
decreasing_by
  · exact matchEmailAt_rest_lt h
  · simp only [List.length_cons]; omega

/-- Model of `ExtractEmailsFromText` (utils.go lines 175-186): nil for empty
input, nil when the regexp finds no match, the match list otherwise.  The Go
nil slice is `none`. -/
def ExtractEmailsFromText (text : String) : Option (List String) :=
  if text = "" then none
  else if ((emailScan text.data).map (fun l => (⟨l⟩ : String))).isEmpty then none
  else some ((emailScan text.data).map (fun l => (⟨l⟩ : String)))

/-! ### Proxy rotation (utils.go `ProxyRotator`, lines 44-66)

`Next` is a plain, unsynchronized read-modify-write on the shared `current`
field: line 63 reads `current` to pick the proxy, line 64 writes the advanced
index, with no mutex and no atomic.  Besides the atomic model (`next`), the
two constituent micro-operations are modelled separately so that an
interleaving of two concurrent calls can be expressed. -/

/-- The proxy rotator state (utils.go lines 44-48).  The Go index is an `int`
that `Next` keeps in `[0, len)`; it is modelled as `Nat`. -/
structure ProxyRotator where
  proxies : List String
  current : Nat
deriving DecidableEq, Repr

/-- Model of `NewProxyRotator` (lines 51-56). -/
def NewProxyRotator (proxies : List String) : ProxyRotator :=
  { proxies := proxies, current := 0 }

/-- Model of a single uninterrupted `Next` call (lines 59-66): return the
proxy at the current index and advance the index modulo the pool size. -/
def ProxyRotator.next (pr : ProxyRotator) : String × ProxyRotator :=
  if pr.proxies.length = 0 then ("", pr)
  else
    (pr.proxies.getD pr.current "",
     { pr with current := (pr.current + 1) % pr.proxies.length })

/-- Micro-operation 1 of `Next` (line 63): the read of `pr.current` that
selects the proxy. -/
def nextReadProxy (pr : ProxyRotator) : String := pr.proxies.getD pr.current ""

/-- Micro-operation 2 of `Next` (line 64): the index value computed from the
state the call observed. -/
def nextComputedIndex (pr : ProxyRotator) : Nat :=
  (pr.current + 1) % pr.proxies.length

/-- Writing an index into the shared state (the assignment of line 64). -/
def writeIndex (pr : ProxyRotator) (i : Nat) : ProxyRotator :=
  { pr with current := i }

/-- Two `Next` calls by concurrent goroutines A and B on a shared rotator,
under the interleaving: A reads line 63, B reads line 63, A writes line 64,
B writes line 64.  Nothing in `Next` forbids this schedule, since the field
accesses are unsynchronized.  Returns (A's proxy, B's proxy, final state). -/
def racedNextPair (pr : ProxyRotator) : String × String × ProxyRotator :=
  let aProxy := nextReadProxy pr
  let aIndex := nextComputedIndex pr
  let bProxy := nextReadProxy pr
  let bIndex := nextComputedIndex pr
  let afterA := writeIndex pr aIndex
  let afterB := writeIndex afterA bIndex
  (aProxy, bProxy, afterB)

/-- Two `Next` calls executed atomically one after the other — the behaviour
a mutex-guarded or atomic rotation would guarantee. -/
def seqNextPair (pr : ProxyRotator) : String × String × ProxyRotator :=
  let a := pr.next
  let b := a.2.next
  (a.1, b.1, b.2)

/-! ### Orchestrator lemmas and claims C1, C2, C10 -/

/-- The postings a given site contributes on success, if any. -/
def okResult (scrapers : Site → Option (Except String (List JobPost)))
    (s : Site) : Option (List JobPost) :=
  match scrapers s with
  | some (.ok r) => some r
  | _ => none

/-- The error a given site's adapter reports, if any. -/
def errResult (scrapers : Site → Option (Except String (List JobPost)))
    (s : Site) : Option String :=
  match scrapers s with
  | some (.error e) => some e
  | _ => none

theorem collectRuns_append (scrapers : Site → Option (Except String (List JobPost)))
    (l1 l2 : List Site) :
    collectRuns scrapers (l1 ++ l2) =
      ((collectRuns scrapers l1).1 ++ (collectRuns scrapers l2).1,
       (collectRuns scrapers l1).2 ++ (collectRuns scrapers l2).2) := by
  induction l1 with
  | nil => simp [collectRuns]
  | cons s rest ih =>
    simp only [List.cons_append, collectRuns]
    cases hs : scrapers s with
    | none => simpa using ih
    | some r =>
      cases r with
      | ok v => simp [ih]
      | error e => simp [ih]

theorem collectRuns_fst_eq (scrapers : Site → Option (Except String (List JobPost)))
    (sites : List Site) :
    (collectRuns scrapers sites).1 = sites.filterMap (okResult scrapers) := by
  induction sites with
  | nil => rfl
  | cons s rest ih =>
    simp only [collectRuns, List.filterMap_cons]
    cases hs : scrapers s with
    | none => simp [okResult, hs, ih]
    | some r => cases r <;> simp [okResult, hs, ih]

theorem collectRuns_snd_eq (scrapers : Site → Option (Except String (List JobPost)))
    (sites : List Site) :
    (collectRuns scrapers sites).2 = sites.filterMap (errResult scrapers) := by
  induction sites with
  | nil => rfl
  | cons s rest ih =>
    simp only [collectRuns, List.filterMap_cons]
    cases hs : scrapers s with
    | none => simp [errResult, hs, ih]
    | some r => cases r <;> simp [errResult, hs, ih]

/-- C1: the claim says every per-adapter error is exposed to the caller as a
secondary error list inside `ScrapeJobs`' returned value.  It is false: the
returned value is `(JobResponse\x7bJobs\x7d, nil)` (jobspy.go line 148), the
errors drained from `errorsChan` are only logged (lines 143-146), and no
function of the returned value can recover them — a run whose only adapter
fails with `"boom"` returns the very same value as a run whose only adapter
succeeds with zero postings. -/
theorem scrapeJobs_errors_not_exposed :
    ¬ ∃ expose : JobResponse × Option String → List String,
        ∀ (scrapers : Site → Option (Except String (List JobPost)))
          (sites : List Site),
          expose (scrapeJobsFromSites scrapers sites) = loggedErrors scrapers sites := by
  rintro ⟨expose, hexp⟩
  have h1 := hexp (fun _ => some (.error "boom")) [Site.indeed]
  have h2 := hexp (fun _ => some (.ok [])) [Site.indeed]
  have : ("boom" :: [] : List String) = [] := by
    have e1 : loggedErrors (fun _ => some (.error "boom")) [Site.indeed] = ["boom"] := rfl
    have e2 : loggedErrors (fun _ => some (.ok [])) [Site.indeed] = [] := rfl
    rw [e1] at h1
    rw [e2] at h2
    exact h1.symm.trans h2
  cases this

/-- C1 (amended): `ScrapeJobs` collects every per-adapter error on the errors
channel and logs it, but the returned value carries only the concatenated
successful postings together with a nil error; the error list is not part of
the returned value. -/
theorem scrapeJobs_collects_and_logs_errors
    (scrapers : Site → Option (Except String (List JobPost))) (sites : List Site) :
    (scrapeJobsFromSites scrapers sites).2 = none ∧
    (scrapeJobsFromSites scrapers sites).1.jobs =
      (sites.filterMap (okResult scrapers)).flatten ∧
    loggedErrors scrapers sites = sites.filterMap (errResult scrapers) := by
  refine ⟨rfl, ?_, ?_⟩
  · simp [scrapeJobsFromSites, collectRuns_fst_eq]
  · simp [loggedErrors, collectRuns_snd_eq]

/-- C2: with one failing adapter among otherwise succeeding ones, `ScrapeJobs`
still returns the full postings of the other adapters, the failing adapter
contributes zero postings and exactly one recorded error, and removing it
from the site list does not change the returned value at all. -/
theorem scrapeJobs_one_failing_adapter
    (scrapers : Site → Option (Except String (List JobPost)))
    (pre post : List Site) (bad : Site) (e : String) (okOf : Site → List JobPost)
    (hbad : scrapers bad = some (.error e))
    (hok : ∀ s ∈ pre ++ post, scrapers s = some (.ok (okOf s))) :
    scrapeJobsFromSites scrapers (pre ++ bad :: post) =
      (⟨((pre ++ post).map okOf).flatten⟩, none) ∧
    loggedErrors scrapers (pre ++ bad :: post) = [e] ∧
    scrapeJobsFromSites scrapers (pre ++ bad :: post) =
      scrapeJobsFromSites scrapers (pre ++ post) := by
  have hfm : ∀ l : List Site, (∀ s ∈ l, scrapers s = some (.ok (okOf s))) →
      l.filterMap (okResult scrapers) = l.map okOf := by
    intro l hl
    induction l with
    | nil => rfl
    | cons s rest ih =>
      have hs := hl s (by simp)
      simp only [List.filterMap_cons, List.map_cons, okResult, hs]
      exact congrArg _ (ih fun s' hs' => hl s' (by simp [hs']))
  have hem : ∀ l : List Site, (∀ s ∈ l, scrapers s = some (.ok (okOf s))) →
      l.filterMap (errResult scrapers) = [] := by
    intro l hl
    induction l with
    | nil => rfl
    | cons s rest ih =>
      have hs := hl s (by simp)
      simp only [List.filterMap_cons, errResult, hs]
      exact ih fun s' hs' => hl s' (by simp [hs'])
  have hok' : (pre ++ bad :: post).filterMap (okResult scrapers) =
      (pre ++ post).map okOf := by
    rw [List.filterMap_append, List.filterMap_cons]
    simp only [okResult, hbad]
    rw [← List.filterMap_append, hfm _ hok]
  have herr' : (pre ++ bad :: post).filterMap (errResult scrapers) = [e] := by
    rw [List.filterMap_append, List.filterMap_cons]
    simp only [errResult, hbad]
    have h1 : pre.filterMap (errResult scrapers) = [] :=
      hem pre fun s hs => hok s (by simp [hs])
    have h2 : post.filterMap (errResult scrapers) = [] :=
      hem post fun s hs => hok s (by simp [hs])
    rw [h1, h2]
    rfl
  refine ⟨?_, ?_, ?_⟩
  · simp only [scrapeJobsFromSites, collectRuns_fst_eq, hok']
  · simp only [loggedErrors, collectRuns_snd_eq, herr']
  · simp only [scrapeJobsFromSites, collectRuns_fst_eq, hok',
      List.filterMap_append, hfm pre fun s hs => hok s (by simp [hs]),
      hfm post fun s hs => hok s (by simp [hs]), List.map_append]

/-- A minimal posting used by the concrete witnesses. -/
def samplePost (u : String) : JobPost := { title := u, jobURL := u }

/-- A concrete scraper map for the witnesses: Indeed fails with "boom",
every other site returns a single posting. -/
def cScrapers : Site → Option (Except String (List JobPost)) := fun s =>
  match s with
  | .indeed => some (.error "boom")
  | _ => some (.ok [samplePost "j"])

/-- The per-site success postings of `cScrapers`. -/
def cOk : Site → List JobPost := fun _ => [samplePost "j"]

/-- A scraper map with no registered scraper at all. -/
def cNoScrapers : Site → Option (Except String (List JobPost)) := fun _ => none

/-- C2 witness: three sites, the Indeed adapter fails with "boom", LinkedIn
and Google each return one posting; the orchestrator returns exactly those
two postings, records exactly one error, and behaves as if Indeed had not
been in the list. -/
theorem scrapeJobs_one_failing_adapter_witness :
    (cScrapers Site.indeed = some (.error "boom") ∧
      ∀ s ∈ [Site.linkedin] ++ [Site.google],
        cScrapers s = some (.ok (cOk s))) ∧
    (scrapeJobsFromSites cScrapers ([Site.linkedin] ++ Site.indeed :: [Site.google]) =
        (⟨(([Site.linkedin] ++ [Site.google]).map cOk).flatten⟩, none) ∧
      loggedErrors cScrapers ([Site.linkedin] ++ Site.indeed :: [Site.google]) = ["boom"] ∧
      scrapeJobsFromSites cScrapers ([Site.linkedin] ++ Site.indeed :: [Site.google]) =
        scrapeJobsFromSites cScrapers ([Site.linkedin] ++ [Site.google])) :=
  ⟨⟨rfl, by intro s hs; simp at hs; rcases hs with h | h <;> subst h <;> rfl⟩,
    scrapeJobs_one_failing_adapter cScrapers [Site.linkedin] [Site.google]
      Site.indeed "boom" cOk rfl
      (by intro s hs; simp at hs; rcases hs with h | h <;> subst h <;> rfl)⟩

/-- C10: whenever site-name resolution succeeds, `ScrapeJobs` returns a nil
error no matter what the adapters do, and a resolved site with no registered
scraper is skipped, contributing neither postings nor an error. -/
theorem scrapeJobs_nil_error_and_skips_unregistered
    (scrapers : Site → Option (Except String (List JobPost)))
    (input : SiteNameInput) (sites : List Site)
    (pre post : List Site) (u : Site)
    (hparse : parseSites input = .ok sites)
    (hunreg : scrapers u = none) :
    ScrapeJobsModel scrapers input = .ok (scrapeJobsFromSites scrapers sites) ∧
    (scrapeJobsFromSites scrapers sites).2 = none ∧
    scrapeJobsFromSites scrapers (pre ++ u :: post) =
      scrapeJobsFromSites scrapers (pre ++ post) := by
  refine ⟨?_, rfl, ?_⟩
  · simp [ScrapeJobsModel, hparse]
  · simp only [scrapeJobsFromSites, collectRuns_append]
    have : collectRuns scrapers (u :: post) = collectRuns scrapers post := by
      simp [collectRuns, hunreg]
    rw [this]

/-- C10 witness: the site string "indeed" resolves, every adapter errors, yet
the returned error is nil; and an unregistered site (modelled by an empty
scraper map) is skipped. -/
theorem scrapeJobs_nil_error_witness :
    (parseSites (SiteNameInput.str "indeed") = .ok [Site.indeed] ∧
      cNoScrapers Site.linkedin = none) ∧
    (ScrapeJobsModel cNoScrapers (SiteNameInput.str "indeed") =
        .ok (scrapeJobsFromSites cNoScrapers [Site.indeed]) ∧
      (scrapeJobsFromSites cNoScrapers [Site.indeed]).2 = none ∧
      scrapeJobsFromSites cNoScrapers ([Site.indeed] ++ Site.linkedin :: []) =
        scrapeJobsFromSites cNoScrapers ([Site.indeed] ++ [])) :=
  ⟨⟨rfl, rfl⟩,
    scrapeJobs_nil_error_and_skips_unregistered cNoScrapers
      (SiteNameInput.str "indeed") [Site.indeed] [Site.indeed] [] Site.linkedin
      rfl rfl⟩


/-! ### Claim C3: the pagination walk terminates within a bounded number of
steps -/

theorem scrapeWalk_isSome_of_fuel
    (fetch : Nat → String → Except String (List JobPost × String)) (target : Int) :
    ∀ (fuel page : Nat) (acc : List JobPost) (seen : List String) (cursor : String),
      (target - acc.length).toNat < fuel →
      (scrapeWalk fetch target fuel page acc seen cursor).isSome := by
  intro fuel
  induction fuel with
  | zero => intro page acc seen cursor h; exact absurd h (Nat.not_lt_zero _)
  | succ n ih =>
    intro page acc seen cursor h
    rw [scrapeWalk]
    split
    · next hlt =>
      cases hf : fetch page cursor with
      | error e => simp
      | ok p =>
        obtain ⟨items, nextCursor⟩ := p
        dsimp only
        by_cases hemp : (dedupPage seen items).1.isEmpty
        · simp [hemp]
        · rw [if_neg hemp]
          by_cases hnc : nextCursor = ""
          · simp [hnc]
          · rw [if_neg hnc]
            apply ih
            have hne : (dedupPage seen items).1 ≠ [] :=
              fun hh => hemp (List.isEmpty_iff.mpr hh)
            have hlen : 0 < (dedupPage seen items).1.length := List.length_pos.mpr hne
            have := List.length_append acc (dedupPage seen items).1
            omega
    · simp

/-- C3: for every page-fetching behaviour (the fetch may answer each page
number and cursor arbitrarily, so it covers a source that repeats the same
cursor with the same or with different pages) and every
`resultsWanted`/`offset`, the page loop of `IndeedScraper.Scrape` ends
(successfully or with a page error) within `resultsWanted + offset + 1`
iterations, starting as the Go code does at page 1 with an empty cursor: each
non-final iteration appends at least one new post-dedup posting, and a page
whose postings were all already seen yields zero new postings and ends the
walk, so a repeated page cannot make the loop run forever. -/
theorem indeed_pagination_walk_terminates
    (fetch : Nat → String → Except String (List JobPost × String))
    (resultsWanted offset : Int) :
    (scrapeWalk fetch (resultsWanted + offset)
      ((resultsWanted + offset).toNat + 1) 1 [] [] "").isSome :=
  scrapeWalk_isSome_of_fuel fetch (resultsWanted + offset) _ 1 [] [] ""
    (by simp)

/-! ### Claim C5: the final offset/limit slicing -/

/-- C5 counterexample: the claim quantifies over every offset and promises
the clamped window with "never an error", but the Go code clamps the slice
bounds only from above; with 2 accumulated postings, `offset = -1` and
`resultsWanted = 1` the slice expression `allJobs[-1:0]` panics instead of
returning the clamped window.  (`applyOffsetLimit_overflow_panics` shows the
same for non-negative inputs whose Go `int` sum overflows.) -/
theorem applyOffsetLimit_negative_offset_panics :
    applyOffsetLimit [samplePost "a", samplePost "b"] (-1) 1 = none := by decide

/-- The wrap is not hypothetical: with non-negative inputs whose sum reaches
`2 ^ 63`, the Go `end` wraps negative, the `end > len` clamp does not fire,
and the slice expression panics — here `allJobs[2:-2^63]`. -/
theorem applyOffsetLimit_overflow_panics :
    applyOffsetLimit [samplePost "a", samplePost "b"] (2 ^ 63 - 1) 1 = none := by
  decide

/-- C5 (amended): for every accumulated postings list and every
**non-negative** offset and resultsWanted whose sum stays below `2 ^ 63`
(so the Go `int` addition of line 75 does not overflow), the adapter returns
exactly the window `[offset, offset+resultsWanted)` clamped to the
accumulated length; in particular an offset at or beyond the accumulated
length yields an empty slice, and no slice-bounds panic is possible.  A
negative offset (`applyOffsetLimit_negative_offset_panics`) or an
overflowing sum (`applyOffsetLimit_overflow_panics`) panics instead. -/
theorem applyOffsetLimit_clamped_window
    (allJobs : List JobPost) (offset resultsWanted : Int)
    (hoff : 0 ≤ offset) (hrw : 0 ≤ resultsWanted)
    (hbound : offset + resultsWanted < 2 ^ 63) :
    applyOffsetLimit allJobs offset resultsWanted =
      some ((allJobs.drop offset.toNat).take resultsWanted.toNat) := by
  unfold applyOffsetLimit
  dsimp only
  have hg : goIntWrap (offset + resultsWanted) = offset + resultsWanted := by
    unfold goIntWrap
    omega
  rw [hg]
  by_cases hA : offset > (allJobs.length : Int)
  · rw [if_pos hA]
    have hB : offset + resultsWanted > (allJobs.length : Int) := by omega
    rw [if_pos hB]
    rw [if_pos (⟨by omega, le_refl _⟩ :
      0 ≤ (allJobs.length : Int) ∧ (allJobs.length : Int) ≤ (allJobs.length : Int))]
    have hd : allJobs.drop offset.toNat = [] := List.drop_eq_nil_of_le (by omega)
    have hz : ((allJobs.length : Int) - (allJobs.length : Int)).toNat = 0 := by omega
    rw [hz, hd]
    simp
  · rw [if_neg hA]
    by_cases hB : offset + resultsWanted > (allJobs.length : Int)
    · rw [if_pos hB]
      rw [if_pos (⟨hoff, by omega⟩ : 0 ≤ offset ∧ offset ≤ (allJobs.length : Int))]
      have hlen : (allJobs.drop offset.toNat).length = allJobs.length - offset.toNat := by
        simp
      have ht1 : (allJobs.drop offset.toNat).take ((allJobs.length : Int) - offset).toNat =
          allJobs.drop offset.toNat := List.take_of_length_le (by omega)
      have ht2 : (allJobs.drop offset.toNat).take resultsWanted.toNat =
          allJobs.drop offset.toNat := List.take_of_length_le (by omega)
      rw [ht1, ht2]
    · rw [if_neg hB]
      rw [if_pos (⟨hoff, by omega⟩ : 0 ≤ offset ∧ offset ≤ offset + resultsWanted)]
      have he : (offset + resultsWanted - offset).toNat = resultsWanted.toNat := by omega
      rw [he]

/-- A concrete accumulation of 25 distinct postings. -/
def samplePosts : List JobPost := (List.range 25).map (fun i => samplePost (toString i))

/-- C5 witness: 25 accumulated postings with offset 10 and resultsWanted 5
produce exactly postings 10 through 14. -/
theorem applyOffsetLimit_clamped_window_witness :
    ((0 : Int) ≤ 10 ∧ (0 : Int) ≤ 5 ∧ (10 : Int) + 5 < 2 ^ 63) ∧
    applyOffsetLimit samplePosts 10 5 =
      some ((samplePosts.drop (10 : Int).toNat).take (5 : Int).toNat) :=
  ⟨⟨by decide, by decide, by decide⟩,
    applyOffsetLimit_clamped_window samplePosts 10 5 (by decide) (by decide)
      (by decide)⟩

/-! ### Claim C7: dedup is idempotent -/

theorem dedupPage_seen_mono (items : List JobPost) :
    ∀ (seen : List String) (url : String),
      url ∈ seen → url ∈ (dedupPage seen items).2 := by
  induction items with
  | nil => intro seen url h; exact h
  | cons j rest ih =>
    intro seen url h
    rw [dedupPage]
    split
    · exact ih seen url h
    · exact ih (j.jobURL :: seen) url (List.mem_cons_of_mem _ h)

theorem dedupPage_mem_seen (items : List JobPost) :
    ∀ (seen : List String) (j : JobPost),
      j ∈ items → j.jobURL ∈ (dedupPage seen items).2 := by
  induction items with
  | nil => intro seen j h; cases h
  | cons k rest ih =>
    intro seen j h
    rw [dedupPage]
    rcases List.mem_cons.mp h with h' | h'
    · subst h'
      split
      · next hk => exact dedupPage_seen_mono rest seen _ hk
      · exact dedupPage_seen_mono rest _ _ (List.mem_cons_self _ _)
    · split
      · exact ih seen j h'
      · exact ih (k.jobURL :: seen) j h'

theorem dedupPage_of_all_seen (items : List JobPost) :
    ∀ seen : List String, (∀ j ∈ items, j.jobURL ∈ seen) →
      dedupPage seen items = ([], seen) := by
  induction items with
  | nil => intro seen _; rfl
  | cons j rest ih =>
    intro seen h
    rw [dedupPage]
    rw [if_pos (h j (List.mem_cons_self _ _))]
    exact ih seen fun k hk => h k (List.mem_cons_of_mem _ hk)

/-- C7: the dedup filter of `scrapePage` is idempotent — after one pass over
a page's items, a second pass over the same items emits nothing and leaves
the seen set unchanged (so feeding the page twice accumulates exactly the
postings of feeding it once) — and an item whose canonical URL is already in
the seen set is dropped silently, leaving the page result untouched. -/
theorem dedupPage_idempotent
    (seen : List String) (items : List JobPost) (j : JobPost)
    (hseen : j.jobURL ∈ seen) :
    dedupPage (dedupPage seen items).2 items = ([], (dedupPage seen items).2) ∧
    dedupPage seen (j :: items) = dedupPage seen items := by
  constructor
  · exact dedupPage_of_all_seen items _ (fun k hk => dedupPage_mem_seen items seen k hk)
  · rw [dedupPage, if_pos hseen]

/-- C7 witness: a page with a repeated URL and a URL already seen, fed twice. -/
theorem dedupPage_idempotent_witness :
    ("u0" : String) ∈ ["u0"] ∧
    (dedupPage (dedupPage ["u0"] [samplePost "u1", samplePost "u1", samplePost "u2"]).2
        [samplePost "u1", samplePost "u1", samplePost "u2"] =
      ([], (dedupPage ["u0"] [samplePost "u1", samplePost "u1", samplePost "u2"]).2) ∧
    dedupPage ["u0"] (samplePost "u0" :: [samplePost "u1", samplePost "u1", samplePost "u2"]) =
      dedupPage ["u0"] [samplePost "u1", samplePost "u1", samplePost "u2"]) :=
  ⟨List.mem_cons_self _ _,
    dedupPage_idempotent ["u0"] [samplePost "u1", samplePost "u1", samplePost "u2"]
      (samplePost "u0") (by decide)⟩



/-! ### Claim C4: compensation parsing -/

/-- C4 counterexample: the claim says an input with no numeric token yields
no compensation object (and that the currency is set when a numeric amount is
found).  But the regexp class `[\d,]` also matches a bare comma: on input
`","` there is one captured token containing no digit, `ParseFloat` fails on
it, and `parseSalary` returns a compensation object with the currency set and
no amounts at all — neither "no compensation object" nor "min = max = that
value". -/
theorem parseSalary_digitless_counterexample :
    ((("," : String).data.all fun c => !c.isDigit) = true) ∧
    parseSalary "," =
      some { interval := none, minAmount := none, maxAmount := none,
             currency := some "USD" } :=
  ⟨by decide, by decide⟩

/-- C4 (amended): zero regexp matches (or empty text) yield no compensation;
otherwise a compensation object is returned with currency "USD" even when no
match parses as a number; among the parsed amounts, min is the first and max
the second (min = max when exactly one parses, both unset when none parses);
the interval is inferred by case-insensitive substring search in the order
year/annual, hour, month.  The claim's concrete examples hold. -/
theorem parseSalary_characterised (s : String) :
    (parseSalary s =
      if s = "" ∨ salTokens s.data = [] then none
      else some
        { interval :=
            if containsLower s "year" || containsLower s "annual" then
              some .yearly
            else if containsLower s "hour" then some .hourly
            else if containsLower s "month" then some .monthly
            else none,
          minAmount := (salAmounts s).head?,
          maxAmount :=
            match salAmounts s with
            | [] => none
            | [a] => some a
            | _ :: b :: _ => some b,
          currency := some "USD" }) ∧
    parseSalary "$50,000 - $70,000 a year" =
      some { interval := some .yearly, minAmount := some 50000,
             maxAmount := some 70000, currency := some "USD" } ∧
    parseSalary "$25.50 an hour" =
      some { interval := some .hourly, minAmount := some (51/2 : ℚ),
             maxAmount := some (51/2 : ℚ), currency := some "USD" } := by
  refine ⟨?_, ?_, ?_⟩
  · by_cases he : s = ""
    · simp [parseSalary, he]
    · by_cases ht : salTokens s.data = []
      · simp [parseSalary, he, ht]
      · have ht' : (salTokens s.data).isEmpty = false := by
          simp [List.isEmpty_iff, ht]
        rw [if_neg (by simp [he, ht])]
        unfold parseSalary
        rw [if_neg he]
        simp only [ht', Bool.false_eq_true, if_false]
        cases ham : salAmounts s with
        | nil => simp [ham]
        | cons a t =>
          cases t with
          | nil => simp [ham]
          | cons b t2 => simp [ham]
  · have ht : salTokens ("$50,000 - $70,000 a year").data =
        [⟨['5', '0', ',', '0', '0', '0'], none⟩,
         ⟨['7', '0', ',', '0', '0', '0'], none⟩] := by decide
    have hy : (containsLower "$50,000 - $70,000 a year" "year" ||
        containsLower "$50,000 - $70,000 a year" "annual") = true := by decide
    have hd1 : digitsVal (List.filter (fun c => c != ',')
        ['5', '0', ',', '0', '0', '0']) = 50000 := by decide
    have hd2 : digitsVal (List.filter (fun c => c != ',')
        ['7', '0', ',', '0', '0', '0']) = 70000 := by decide
    unfold parseSalary salAmounts
    rw [ht, hy]
    simp only [List.filterMap_cons, List.filterMap_nil, tokenAmount, hd1, hd2]
    norm_num
    rw [if_neg (show ¬('5' = ',' ∧ '0' = ',') by decide),
        if_neg (show ¬('7' = ',' ∧ '0' = ',') by decide)]
    exact ⟨by decide, rfl, rfl⟩
  · have ht : salTokens ("$25.50 an hour").data =
        [⟨['2', '5'], some ('5', '0')⟩] := by decide
    have hy : (containsLower "$25.50 an hour" "year" ||
        containsLower "$25.50 an hour" "annual") = false := by decide
    have hh : containsLower "$25.50 an hour" "hour" = true := by decide
    have hd : digitsVal (List.filter (fun c => c != ',') ['2', '5']) = 25 := by
      decide
    have hf : 10 * ('5'.toNat - 48) + ('0'.toNat - 48) = 50 := by decide
    unfold parseSalary salAmounts
    rw [ht, hy, hh]
    simp only [List.filterMap_cons, List.filterMap_nil, tokenAmount, hd, hf]
    norm_num
    intro h
    exact absurd h (by decide)

/-! ### Claim C6: location rendering -/

/-- C6 counterexample: the claim's rule says a two-letter country code is
upper-cased, but the code upper-cases only the literal strings "usa" and
"uk"; the two-letter code "de" goes through `strings.Title` and renders as
"De", not "DE". -/
theorem locationString_two_letter_counterexample :
    locationString { city := none, state := none, country := some "de" } = "De" ∧
    ("De" : String) ≠ "DE" :=
  ⟨by decide, by decide⟩

/-- C6 (amended): `Location.String` joins the present parts with ", "; the
country token is upper-cased exactly when it is the literal "usa" or "uk"
(note "usa" has three letters) and title-cased otherwise — including
two-letter codes other than "uk".  All four concrete examples of the claim
hold. -/
theorem locationString_rendering :
    (∀ c : String, renderCountry c =
      if c = "usa" || c = "uk" then goUpper c else goTitle c) ∧
    renderCountry "usa" = "USA" ∧ renderCountry "uk" = "UK" ∧
    renderCountry "canada" = "Canada" ∧ renderCountry "de" = "De" ∧
    locationString { city := some "Boston", state := none, country := none } =
      "Boston" ∧
    locationString { city := some "New York", state := some "NY", country := none } =
      "New York, NY" ∧
    locationString
        { city := some "San Francisco", state := some "CA", country := some "usa" } =
      "San Francisco, CA, USA" ∧
    locationString { city := none, state := none, country := none } = "" :=
  ⟨fun _ => rfl, by decide, by decide, by decide, by decide,
   by decide, by decide, by decide, by decide⟩

/-! ### Claim C8: absence and emptiness coincide for emails and job types -/

theorem emailScan_nil : emailScan [] = [] := by
  unfold emailScan
  split
  · next m rest hm =>
    rw [show matchEmailAt [] = none from rfl] at hm
    cases hm
  · rfl

/-- C8: neither email extraction nor employment-type inference can produce a
present-but-empty list: `ExtractEmailsFromText` returns nil (`none`) exactly
when the regexp finds no match, and `extractJobType` returns nil exactly when
no marker matched; a `some []` value is impossible for both. -/
theorem absence_equals_emptiness :
    (∀ t : String, ExtractEmailsFromText t ≠ some []) ∧
    (∀ t : String, ExtractEmailsFromText t = none ↔ emailScan t.data = []) ∧
    (∀ d : String, extractJobType d ≠ some []) ∧
    (∀ d : String, extractJobType d = none ↔ jobTypeMarkers d = []) := by
  refine ⟨?_, ?_, ?_, ?_⟩
  · intro t h
    unfold ExtractEmailsFromText at h
    split_ifs at h with h1 h2
    all_goals
      first
        | exact Option.noConfusion h
        | (have h' := Option.some.inj h
           exact h2 (by simp [h']))
  · intro t
    constructor
    · intro h
      unfold ExtractEmailsFromText at h
      split_ifs at h with h1 h2
      all_goals
        first
          | (subst h1; exact emailScan_nil)
          | simpa using h2
          | exact Option.noConfusion h
    · intro h
      unfold ExtractEmailsFromText
      split_ifs with h1 h2
      all_goals first | rfl | exact absurd (by simp [h]) h2
  · intro d h
    unfold extractJobType at h
    split_ifs at h with h1
    all_goals
      first
        | exact Option.noConfusion h
        | (have h' := Option.some.inj h
           exact h1 (by simp [h']))
  · intro d
    constructor
    · intro h
      unfold extractJobType at h
      split_ifs at h with h1
      all_goals
        first
          | exact List.isEmpty_iff.mp h1
          | exact Option.noConfusion h
    · intro h
      unfold extractJobType
      rw [if_pos (by simp [h])]

/-! ### Claim C9: proxy rotation under concurrency -/

/-- C9: the claim requires `ProxyRotator.Next` to advance its index
atomically or under a mutex.  The code has neither: `Next` is a plain
read-modify-write of the shared `current` field.  Under the legal
interleaving in which two goroutines both execute the read of line 63 before
either executes the write of line 64, both calls return the first proxy and
one advance is lost — the round-robin behaviour (first call "p1", second
call "p2") that the synchronized, sequential execution produces is violated. -/
theorem proxyRotator_next_is_racy :
    racedNextPair (NewProxyRotator ["p1", "p2"]) =
      ("p1", "p1", { proxies := ["p1", "p2"], current := 1 }) ∧
    seqNextPair (NewProxyRotator ["p1", "p2"]) =
      ("p1", "p2", { proxies := ["p1", "p2"], current := 0 }) ∧
    (racedNextPair (NewProxyRotator ["p1", "p2"])).2.1 ≠
      (seqNextPair (NewProxyRotator ["p1", "p2"])).2.1 := by
  refine ⟨by decide, by decide, by decide⟩


end JobSpy
